import Mathlib

/-!
Verification development for `html-webpack-inline-source-plugin` (src/index.js).

The plugin's logic is shallowly embedded below:
* HTML tag descriptors, the compilation's artifact set and output options are
  explicit structures; the webpack artifact (a `Source` object) is modelled by
  the string its `source()` method yields.
* The user-supplied inline-source pattern (`new RegExp(regexStr)`) is modelled
  by the matcher function it compiles to, `String → Bool` (the `test` method).
* JavaScript exceptions (`TypeError` on passing `undefined` where Node's `path`
  functions require a string, and on reading `.source` of `undefined`) are
  modelled with `Except String`.
* The external collaborators (`path.posix`, `slash`, `source-map-url`) are
  modelled from their documented behaviour, see the individual doc comments.
-/

/-- Whitespace characters as matched by the JavaScript regex class `\s`
(restricted to the ASCII range, which is all the plugin's inputs use). -/
def isWsChar (c : Char) : Bool :=
  c == ' ' || c == '\t' || c == '\n' || c == '\r' || c == '\x0b' || c == '\x0c'

/-- Drop trailing whitespace of a character list. -/
def dropTrailingWs (l : List Char) : List Char :=
  (l.reverse.dropWhile isWsChar).reverse

/-- Drop the last `n` characters. -/
def dropLastN (l : List Char) (n : Nat) : List Char :=
  l.take (l.length - n)

/-- Split a character list at every `'/'`; the separators are consumed and
empty segments are kept (mirrors JavaScript `String.split('/')`). -/
def splitSegs : List Char → List (List Char)
  | [] => [[]]
  | '/' :: rest => [] :: splitSegs rest
  | c :: rest =>
    match splitSegs rest with
    | [] => [[c]]
    | s :: ss => (c :: s) :: ss

/-- Join segments with `'/'` separators. -/
def joinSegs : List (List Char) → List Char
  | [] => []
  | [s] => s
  | s :: ss => s ++ '/' :: joinSegs ss

/-- Resolve `..` segments against an accumulator, as Node's path
normalization does: outside the root a leading `..` is kept for relative
paths and dropped for absolute ones. -/
def resolveDotsAux (isAbs : Bool) : List (List Char) → List (List Char) → List (List Char)
  | acc, [] => acc.reverse
  | acc, p :: ps =>
    if p = ['.', '.'] then
      match acc with
      | [] => if isAbs then resolveDotsAux isAbs [] ps else resolveDotsAux isAbs [p] ps
      | a :: rest =>
        if a = ['.', '.'] then resolveDotsAux isAbs (p :: a :: rest) ps
        else resolveDotsAux isAbs rest ps
    else resolveDotsAux isAbs (p :: acc) ps

/-- Models Node's `path.posix.normalize`: collapses repeated separators,
resolves `.` and `..` segments, preserves a leading `/` and a trailing `/`. -/
def posixNormalize (p : String) : String :=
  let cs := p.data
  if cs.isEmpty then "."
  else
    let isAbs := cs.headD ' ' == '/'
    let trailing := cs.getLastD ' ' == '/'
    let parts := (splitSegs cs).filter (fun s => !s.isEmpty && s != ['.'])
    let resolved := resolveDotsAux isAbs [] parts
    let core := joinSegs resolved
    if core.isEmpty then
      if isAbs then "/" else if trailing then "./" else "."
    else
      String.mk ((if isAbs then ['/'] else []) ++ core ++ (if trailing then ['/'] else []))

/-- Models Node's `path.posix.join` for two arguments: empty arguments are
skipped, the remaining ones are concatenated with `/` and normalized. -/
def posixJoin (a b : String) : String :=
  if a.data.isEmpty && b.data.isEmpty then "."
  else if a.data.isEmpty then posixNormalize b
  else if b.data.isEmpty then posixNormalize a
  else posixNormalize (String.mk (a.data ++ '/' :: b.data))

/-- Models Node's `path.posix.resolve` of a single path with the process
working directory fixed at `/` (every place the plugin calls `relative`, the
Node result is independent of the working directory, which only shifts both
arguments by the same prefix). -/
def posixResolveRoot (p : String) : String :=
  let pre := if p.data.headD ' ' == '/' then p else String.mk ('/' :: p.data)
  let n := posixNormalize pre
  if n.data.length > 1 && n.data.getLastD ' ' == '/' then String.mk n.data.dropLast else n

/-- Length of the common segment prefix of two segment lists. -/
def commonPrefixLen : List (List Char) → List (List Char) → Nat
  | a :: as, b :: bs => if a = b then 1 + commonPrefixLen as bs else 0
  | _, _ => 0

/-- Models Node's `path.posix.relative`: resolve both paths, then climb with
`..` segments out of the non-shared part of `from` and descend into the
non-shared part of `to`. -/
def posixRelative (fromP toP : String) : String :=
  let f := posixResolveRoot fromP
  let t := posixResolveRoot toP
  if f = t then ""
  else
    let fs := (splitSegs f.data).filter (fun s => !s.isEmpty)
    let ts := (splitSegs t.data).filter (fun s => !s.isEmpty)
    let common := commonPrefixLen fs ts
    let ups := List.replicate (fs.length - common) ['.', '.']
    String.mk (joinSegs (ups ++ ts.drop common))

/-- Models Node's `path.basename`: the part after the last separator, with
trailing separators ignored. -/
def posixBasename (p : String) : String :=
  let trimmed := (p.data.reverse.dropWhile (fun c => c == '/')).reverse
  String.mk ((trimmed.reverse.takeWhile (fun c => c != '/')).reverse)

/-- Models Node's `path.posix.dirname`: everything before the last separator;
`.` when there is none, `/` for the root. -/
def posixDirname (p : String) : String :=
  let trimmed := (p.data.reverse.dropWhile (fun c => c == '/')).reverse
  if trimmed.all (fun c => c != '/') then
    if p.data.headD ' ' == '/' then "/" else "."
  else
    let pre := ((trimmed.reverse.dropWhile (fun c => c != '/')).reverse).dropLast
    if pre.isEmpty then "/" else String.mk pre

/-- Models the `slash` dependency: converts Windows backslash separators to
forward slashes (the extended-length-path guard never fires on the
POSIX-style paths the plugin handles). -/
def slashFn (p : String) : String :=
  String.mk (p.data.map (fun c => if c == '\\' then '/' else c))

/-- Boolean test that `s` starts with `p`. -/
def strStartsWith (s p : String) : Bool :=
  p.data.isPrefixOf s.data

/-- Characters the `source-map-url` reference may contain: the regex class
`[^\s'"]`. -/
def urlChar (c : Char) : Bool :=
  !isWsChar c && c != '\'' && c != '"'

/-- The comment marker text `sourceMappingURL=` as a character list. -/
def markerL : List Char :=
  ['s', 'o', 'u', 'r', 'c', 'e', 'M', 'a', 'p', 'p', 'i', 'n', 'g', 'U', 'R', 'L', '=']

/-- Split a character list around the last occurrence of `markerL`, returning
the characters before the marker and the characters after it. -/
def splitAtLastMarker : List Char → Option (List Char × List Char)
  | [] => none
  | c :: rest =>
    match splitAtLastMarker rest with
    | some (pre, url) => some (c :: pre, url)
    | none =>
      if markerL.isPrefixOf (c :: rest) then some ([], (c :: rest).drop 17)
      else none

/-- Models the `source-map-url` dependency's `getFrom`: extracts the trailing
source-map reference written with the standard `sourceMappingURL` comment
convention — a `//` line comment or a `/* ... */` block comment at the end of
the content (modulo trailing whitespace), introduced by `#` or `@`, the
reference itself containing no whitespace or quote characters. -/
def getFrom (source : String) : Option String :=
  let t1 := dropTrailingWs source.data
  let hasCloser := List.isSuffixOf ['*', '/'] t1
  let t2 := if hasCloser then dropTrailingWs (dropLastN t1 2) else t1
  match splitAtLastMarker t2 with
  | none => none
  | some (pre, url) =>
    let mark := List.isSuffixOf ['/', '/', '#', ' '] pre ||
                List.isSuffixOf ['/', '/', '@', ' '] pre ||
                (hasCloser && (List.isSuffixOf ['#', ' '] pre || List.isSuffixOf ['@', ' '] pre))
    if url.all urlChar && mark then some (String.mk url) else none

/-- Matches the capture group of the replacement regex on line 74 of
src/index.js, `(\s*(?:\*/)?\s*$)`: whitespace, an optional closing block
comment marker, then whitespace up to the end of the content. -/
def tailMatchesClose (t : List Char) : Bool :=
  let l1 := t.dropWhile isWsChar
  if l1.isEmpty then true
  else if ['*', '/'].isPrefixOf l1 then (l1.drop 2).all isWsChar
  else false

/-- Models `source.replace(regex, (match, group) => mapUrlCorrected + group)`
on lines 74-77 of src/index.js: at the leftmost position where the literal
original URL is followed only by the group `(\s*(?:\*/)?\s*$)`, the URL is
replaced by the corrected one and the group is kept; elsewhere the content is
untouched (a non-global JavaScript replace rewrites at most one match). -/
def replaceMapUrlL (url corrected : List Char) : List Char → List Char
  | [] => []
  | c :: rest =>
    if url.isPrefixOf (c :: rest) && tailMatchesClose ((c :: rest).drop url.length) then
      corrected ++ (c :: rest).drop url.length
    else c :: replaceMapUrlL url corrected rest

/-- Webpack output options as read by the plugin: `output.path` and
`output.publicPath` (webpack's automatic sentinel is the string `auto`). -/
structure OutputOptions where
  path : String
  publicPath : String
deriving DecidableEq

/-- The slice of the webpack compilation the plugin reads: output options and
the artifact set, a name-keyed mapping (modelled as an association list in
enumeration order) from artifact name to the text its `source()` yields. -/
structure Compilation where
  outputOptions : OutputOptions
  assets : List (String × String)
deriving DecidableEq

/-- The result shape of `getAssetByName`: `asset` mirrors the JavaScript
`asset` binding, which is `undefined` (here `none`) when the exact-key lookup
failed, and `assetName` the name the result is reported under. -/
structure AssetInfo where
  asset : Option String
  assetName : String
deriving DecidableEq

/-- An HTML tag descriptor as handed over by html-webpack-plugin: element
name, attribute mapping, closing-tag flag, optional body content, and the
`meta.plugin` producer marker. -/
structure HtmlTag where
  tagName : String
  attributes : List (String × String)
  closeTag : Bool := false
  innerHTML : Option String := none
  metaPlugin : Option String := none
deriving DecidableEq

/-- The three tag sequences html-webpack-plugin passes to `alterAssetTags`. -/
structure AssetTags where
  meta : List HtmlTag
  scripts : List HtmlTag
  styles : List HtmlTag
deriving DecidableEq

/-- The per-HTML-file event object; `filename` stands for
`pluginData.plugin.options.filename`, the target HTML file name. -/
structure PluginData where
  filename : String
  assetTags : AssetTags
deriving DecidableEq

/-- Attribute lookup on a tag, `none` modelling a missing (undefined)
attribute. -/
def getAttr (t : HtmlTag) (n : String) : Option String :=
  (t.attributes.find? (fun p => p.1 == n)).map (fun p => p.2)

/-- JavaScript string coercion applied by `regex.test`: a missing attribute
value (`undefined`) is stringified to `"undefined"`. -/
def jsStringOf : Option String → String
  | none => "undefined"
  | some s => s

/-- Lines 69 and 96 of src/index.js: the effective public path — empty for
the `auto` sentinel, otherwise `slash(out.publicPath) || ''` (the `|| ''` is
the identity on strings, mapping only the empty string to itself). -/
def publicPathOf (out : OutputOptions) : String :=
  if out.publicPath == "auto" then "" else slashFn out.publicPath

/-- Lines 111-121 of src/index.js, `getAssetByName`: exact key lookup first;
otherwise the first key whose path relative to the public path equals the
candidate name is returned — together with the `asset` binding from the
failed exact lookup, exactly as the JavaScript `return { asset,
assetName: key }` does. -/
def getAssetByName (assets : List (String × String)) (assetName : String) (publicPath : String) :
    Option AssetInfo :=
  let asset := (assets.find? (fun p => p.1 == assetName)).map (fun p => p.2)
  if asset.isSome then some { asset := asset, assetName := assetName }
  else
    match assets.find? (fun p => posixRelative publicPath p.1 == assetName) with
    | some kv => some { asset := asset, assetName := kv.1 }
    | none => none

/-- Lines 60-70 of src/index.js: the corrected source-map URL — the map path
is resolved against the asset's directory under the output root, re-expressed
relative to the output root, and prefixed with the (truthy) public path. -/
def mapUrlCorrectedOf (out : OutputOptions) (assetName mapUrlOriginal : String) : String :=
  let rootPath := slashFn out.path
  let assetPath := posixJoin rootPath assetName
  let assetDir := posixDirname assetPath
  let mapPath := posixJoin assetDir mapUrlOriginal
  let mapPathRelative := posixRelative rootPath mapPath
  let publicPath := publicPathOf out
  if publicPath != "" then posixJoin publicPath mapPathRelative else mapPathRelative

/-- Lines 47-78 of src/index.js, `resolveSourceMaps`: reading `source()` of an
`undefined` asset throws (the fallback branch of `getAssetByName` produces
such a value); otherwise the content is returned unmodified when the
reference is absent, empty, a data URI, or root-relative, and rewritten to
the corrected URL otherwise. -/
def resolveSourceMaps (compilation : Compilation) (assetInfo : AssetInfo) : Except String String :=
  match assetInfo.asset with
  | none => .error "TypeError: Cannot read property source of undefined"
  | some source =>
    match getFrom source with
    | none => .ok source
    | some mapUrlOriginal =>
      if mapUrlOriginal == "" || strStartsWith mapUrlOriginal "data:" ||
          strStartsWith mapUrlOriginal "/" then
        .ok source
      else
        let corrected := mapUrlCorrectedOf compilation.outputOptions assetInfo.assetName mapUrlOriginal
        .ok (String.mk (replaceMapUrlL mapUrlOriginal.data corrected.data source.data))

/-- The text `/script>` as a character list. -/
def scriptTailL : List Char := ['/', 's', 'c', 'r', 'i', 'p', 't', '>']

/-- The text `</script>` as a character list. -/
def scriptCloseL : List Char := '<' :: scriptTailL

/-- The replacement `\x3C/script>` produced for each `</script>` occurrence
(the replacement template `'\\x3C$2'` on line 106 of src/index.js). -/
def scriptCloseReplL : List Char := '\\' :: 'x' :: '3' :: 'C' :: scriptTailL

/-- Models `updatedSource.replace(/(<)(\/script>)/g, '\\x3C$2')` on line 106
of src/index.js: each `<` that begins an occurrence of `</script>` is
replaced by the four characters `\x3C` and the group `/script>` is kept.
Scanning restarts right after the replaced `<` instead of after the whole
match, which yields the same output as the left-to-right non-overlapping
global replace: the remainder `/script>` of a match contains no `<`, so no
further match can begin inside a consumed occurrence. -/
def escapeScriptEndL : List Char → List Char
  | [] => []
  | c :: rest =>
    if c == '<' && scriptTailL.isPrefixOf rest then
      '\\' :: 'x' :: '3' :: 'C' :: escapeScriptEndL rest
    else c :: escapeScriptEndL rest

/-- String version of `escapeScriptEndL`. -/
def escapeScriptEnd (s : String) : String :=
  String.mk (escapeScriptEndL s.data)

/-- Boolean substring test used to state the `</script>` property. -/
def listContains (p : List Char) : List Char → Bool
  | [] => p.isEmpty
  | c :: rest => p.isPrefixOf (c :: rest) || listContains p rest

/-- Substring test on strings: does `hay` contain `needle`? -/
def strContains (hay needle : String) : Bool :=
  listContains needle.data hay.data

/-- Lines 102-108 of src/index.js: the replacement descriptor built for an
inlined tag — `script` stays `script`, anything else becomes `style`; a
single `type` attribute; script bodies get the `</script>` escape. -/
def mkInlineTag (origTagName : String) (updatedSource : String) : HtmlTag :=
  { tagName := if origTagName == "script" then "script" else "style"
    closeTag := true
    attributes := [("type", if origTagName == "script" then "text/javascript" else "text/css")]
    innerHTML := some (if origTagName == "script" then escapeScriptEnd updatedSource
                       else updatedSource)
    metaPlugin := some "html-webpack-inline-source-plugin" }

/-- Lines 91-97 of src/index.js: the candidate artifact name — when the HTML
filename differs from its own base name, `path.basename(filename)` (sic) is
joined in front of the asset URL, then the public path prefix is stripped via
`path.posix.relative`. -/
def assetNameFor (filename assetUrl publicPath : String) : String :=
  let basename := posixBasename filename
  let assetUrl' := if basename != filename then posixJoin (slashFn basename) assetUrl
                   else assetUrl
  posixRelative publicPath assetUrl'

/-- Lines 91-108 of src/index.js: the inline path of `processTag`, entered
once a tag matched. `assetUrlOpt` is the raw attribute value; when the
attribute is missing (`undefined`), Node's `path.posix.join`/`relative`
throw a `TypeError` at its first use. -/
def inlineAsset (c : Compilation) (tag : HtmlTag) (assetUrlOpt : Option String)
    (filename : String) : Except String HtmlTag :=
  match assetUrlOpt with
  | none => .error "TypeError: path arguments must be strings"
  | some assetUrl =>
    let publicPath := publicPathOf c.outputOptions
    let assetName := assetNameFor filename assetUrl publicPath
    match getAssetByName c.assets assetName publicPath with
    | none => .ok tag
    | some assetInfo =>
      match resolveSourceMaps c assetInfo with
      | .error e => .error e
      | .ok updatedSource => .ok (mkInlineTag tag.tagName updatedSource)

/-- Lines 80-109 of src/index.js, `processTag`: a `script` tag is tested on
its `src`, a `link` tag on its `href` (missing attributes stringified to
`"undefined"` by `regex.test`); anything else passes through. -/
def processTag (c : Compilation) (regex : String → Bool) (tag : HtmlTag) (filename : String) :
    Except String HtmlTag :=
  if tag.tagName == "script" && regex (jsStringOf (getAttr tag "src")) then
    inlineAsset c tag (getAttr tag "src") filename
  else if tag.tagName == "link" && regex (jsStringOf (getAttr tag "href")) then
    inlineAsset c tag (getAttr tag "href") filename
  else .ok tag

/-- JavaScript `Array.prototype.map` with a callback that may throw: the
first exception aborts the whole traversal. -/
def mapTags (f : HtmlTag → Except String HtmlTag) : List HtmlTag → Except String (List HtmlTag)
  | [] => .ok []
  | t :: ts =>
    match f t with
    | .error e => .error e
    | .ok r =>
      match mapTags f ts with
      | .error e => .error e
      | .ok rs => .ok (r :: rs)

/-- Lines 33-45 of src/index.js, `processTags`: map `processTag` over the
three tag groups and hand back the event object with the groups replaced. -/
def processTags (c : Compilation) (regex : String → Bool) (pluginData : PluginData) :
    Except String PluginData :=
  let filename := pluginData.filename
  match mapTags (fun tag => processTag c regex tag filename) pluginData.assetTags.meta with
  | .error e => .error e
  | .ok metaTags =>
    match mapTags (fun tag => processTag c regex tag filename) pluginData.assetTags.scripts with
    | .error e => .error e
    | .ok scriptTags =>
      match mapTags (fun tag => processTag c regex tag filename) pluginData.assetTags.styles with
      | .error e => .error e
      | .ok styleTags =>
        .ok { pluginData with assetTags := ⟨metaTags, scriptTags, styleTags⟩ }

/-- C1: the claim says `processTag` prefixes the asset reference with the
HTML file's directory component (`sub/` for `sub/index.html`). The code
instead joins `path.basename(filename)`, so for filename `sub/index.html`
and reference `app.js` the candidate artifact name is `index.html/app.js`,
not the `sub/app.js` that prefixing the directory component `sub` would
give. This contradicts the code's own comment ("assetUrl should be
prepended folder path"). -/
theorem c1_subfolder_prefix_uses_basename :
    assetNameFor "sub/index.html" "app.js" "" = "index.html/app.js" ∧
    posixDirname "sub/index.html" = "sub" ∧
    assetNameFor "sub/index.html" "app.js" "" ≠ "sub/app.js" := by
  refine ⟨by decide, by decide, by decide⟩

/-- C2: the claim says the relative-key fallback of `getAssetByName` returns
the artifact stored under the matching key. The code returns the `asset`
binding of the failed exact lookup — `undefined` — next to the matching key:
with artifact set `{"/pub/app.js": "content"}`, public path `/pub/` and
candidate `app.js`, the fallback fires but the result's `asset` is `none`
rather than the stored `"content"`. -/
theorem c2_fallback_returns_undefined_asset :
    getAssetByName [("/pub/app.js", "content")] "app.js" "/pub/" =
      some { asset := none, assetName := "/pub/app.js" } ∧
    getAssetByName [("/pub/app.js", "content")] "app.js" "/pub/" ≠
      some { asset := some "content", assetName := "/pub/app.js" } := by
  refine ⟨by decide, by decide⟩

/-- C3: the claim says `processTag` never raises. It does, on two inputs:
(1) when the artifact is only found through the relative-key fallback,
`resolveSourceMaps` reads `source()` of the `undefined` asset the fallback
returned; (2) when a `script` tag has no `src` and the pattern matches the
stringified `"undefined"`, the undefined asset URL reaches Node's
`path.posix` functions, which require strings. Both are `TypeError`s instead
of the leave-as-is behaviour the claim states. -/
theorem c3_processTag_raises :
    processTag ⟨⟨"/dist", "/pub/"⟩, [("/pub/app.js", "code")]⟩ (fun _ => true)
      { tagName := "script", attributes := [("src", "/pub/app.js")] } "index.html" =
      .error "TypeError: Cannot read property source of undefined" ∧
    processTag ⟨⟨"/dist", "auto"⟩, []⟩ (fun _ => true)
      { tagName := "script", attributes := [] } "index.html" =
      .error "TypeError: path arguments must be strings" :=
  ⟨rfl, rfl⟩

/-- C8: the source-map rewriting round-trip of spec property 6: with output
root `/dist`, artifact name `bundle.js` and public path `/static/`, a
trailing `//# sourceMappingURL=foo.js.map` reference is rewritten to
`/static/foo.js.map`; a data-URI reference and an absolute `/abs/path.map`
reference are returned byte-identical. -/
theorem c8_sourcemap_roundtrip :
    resolveSourceMaps ⟨⟨"/dist", "/static/"⟩, []⟩
      ⟨some "x;\n//# sourceMappingURL=foo.js.map", "bundle.js"⟩ =
      .ok "x;\n//# sourceMappingURL=/static/foo.js.map" ∧
    getFrom "x;\n//# sourceMappingURL=/static/foo.js.map" = some "/static/foo.js.map" ∧
    resolveSourceMaps ⟨⟨"/dist", "/static/"⟩, []⟩
      ⟨some "x;\n//# sourceMappingURL=data:application/json;base64,YQ==", "bundle.js"⟩ =
      .ok "x;\n//# sourceMappingURL=data:application/json;base64,YQ==" ∧
    resolveSourceMaps ⟨⟨"/dist", "/static/"⟩, []⟩
      ⟨some "x;\n//# sourceMappingURL=/abs/path.map", "bundle.js"⟩ =
      .ok "x;\n//# sourceMappingURL=/abs/path.map" :=
  ⟨rfl, rfl, rfl, rfl⟩

/-- C7: `resolveSourceMaps` returns the artifact content unmodified when no
source-map reference is present, when the reference is a data URI, and when
it already begins with a root-relative slash. -/
theorem c7_resolveSourceMaps_early_return (c : Compilation) (name s : String) :
    (getFrom s = none → resolveSourceMaps c ⟨some s, name⟩ = .ok s) ∧
    (∀ u, getFrom s = some u →
      strStartsWith u "data:" = true ∨ strStartsWith u "/" = true →
      resolveSourceMaps c ⟨some s, name⟩ = .ok s) := by
  constructor
  · intro h
    simp [resolveSourceMaps, h]
  · intro u hu hor
    rcases hor with h | h <;> simp [resolveSourceMaps, hu, h]

/-- Witness for C7 at concrete inputs: plain content without a reference, and
content with a data-URI reference. -/
theorem c7_witness :
    resolveSourceMaps ⟨⟨"/d", "auto"⟩, []⟩ ⟨some "var x = 1;", "a.js"⟩ = .ok "var x = 1;" ∧
    resolveSourceMaps ⟨⟨"/d", "auto"⟩, []⟩
      ⟨some "//# sourceMappingURL=data:application/json;base64,YQ==", "a.js"⟩ =
      .ok "//# sourceMappingURL=data:application/json;base64,YQ==" :=
  ⟨(c7_resolveSourceMaps_early_return ⟨⟨"/d", "auto"⟩, []⟩ "a.js" "var x = 1;").1 rfl,
   (c7_resolveSourceMaps_early_return ⟨⟨"/d", "auto"⟩, []⟩ "a.js"
      "//# sourceMappingURL=data:application/json;base64,YQ==").2
      "data:application/json;base64,YQ==" rfl (Or.inl rfl)⟩

/-- C10: for a `script` tag with no `src` attribute, `processTag` tests the
pattern against the stringified `"undefined"`: the tag passes through
unchanged exactly when the pattern does not match `"undefined"`, and a
matching pattern sends the tag into the inline path with the undefined asset
URL instead of passing it through. -/
theorem c10_srcless_script_tests_undefined (c : Compilation) (regex : String → Bool)
    (tag : HtmlTag) (filename : String)
    (hscript : tag.tagName = "script") (hsrc : getAttr tag "src" = none) :
    (processTag c regex tag filename = .ok tag ↔ regex "undefined" = false) ∧
    (regex "undefined" = true →
      processTag c regex tag filename = inlineAsset c tag none filename) := by
  cases hreg : regex "undefined" with
  | false =>
    have hok : processTag c regex tag filename = .ok tag := by
      simp [processTag, hscript, hsrc, jsStringOf, hreg]
    exact ⟨by simp [hok, hreg], fun h => by simp [hreg] at h⟩
  | true =>
    have hin : processTag c regex tag filename = inlineAsset c tag none filename := by
      simp [processTag, hscript, hsrc, jsStringOf, hreg]
    refine ⟨?_, fun _ => hin⟩
    rw [hin]
    simp [inlineAsset, hreg]

/-- Witness for C10: a concrete src-less script tag with an always-matching
pattern enters the inline path (and with it, both directions of the
equivalence are exercised). -/
theorem c10_witness :
    (processTag ⟨⟨"/d", "auto"⟩, []⟩ (fun _ => true)
        { tagName := "script", attributes := [] } "index.html" =
        .ok { tagName := "script", attributes := [] } ↔ (fun (_ : String) => true) "undefined" = false) ∧
    ((fun (_ : String) => true) "undefined" = true →
      processTag ⟨⟨"/d", "auto"⟩, []⟩ (fun _ => true)
        { tagName := "script", attributes := [] } "index.html" =
        inlineAsset ⟨⟨"/d", "auto"⟩, []⟩ { tagName := "script", attributes := [] } none "index.html") :=
  c10_srcless_script_tests_undefined ⟨⟨"/d", "auto"⟩, []⟩ (fun _ => true)
    { tagName := "script", attributes := [] } "index.html" rfl rfl

/-- C4: a `link` tag whose `href` matches and whose artifact lookup and
source-map resolution succeed is replaced by a self-closing `style` element
with exactly the attribute `type: text/css`, body equal to the rewritten
artifact content, and the plugin's meta marker; a matching `script` tag
symmetrically keeps tag name `script` with the single attribute
`type: text/javascript` (its body additionally gets the `</script>`
escape). -/
theorem c4_replacement_descriptor (c : Compilation) (regex : String → Bool)
    (tag : HtmlTag) (filename url u : String) (info : AssetInfo) :
    (tag.tagName = "link" → getAttr tag "href" = some url → regex url = true →
      getAssetByName c.assets (assetNameFor filename url (publicPathOf c.outputOptions))
        (publicPathOf c.outputOptions) = some info →
      resolveSourceMaps c info = .ok u →
      processTag c regex tag filename =
        .ok { tagName := "style", closeTag := true, attributes := [("type", "text/css")],
              innerHTML := some u, metaPlugin := some "html-webpack-inline-source-plugin" }) ∧
    (tag.tagName = "script" → getAttr tag "src" = some url → regex url = true →
      getAssetByName c.assets (assetNameFor filename url (publicPathOf c.outputOptions))
        (publicPathOf c.outputOptions) = some info →
      resolveSourceMaps c info = .ok u →
      processTag c regex tag filename =
        .ok { tagName := "script", closeTag := true, attributes := [("type", "text/javascript")],
              innerHTML := some (escapeScriptEnd u),
              metaPlugin := some "html-webpack-inline-source-plugin" }) := by
  constructor
  · intro htag hhref hreg hlookup hres
    simp [processTag, htag, hhref, jsStringOf, hreg, inlineAsset, hlookup, hres, mkInlineTag]
  · intro htag hsrc hreg hlookup hres
    simp [processTag, htag, hsrc, jsStringOf, hreg, inlineAsset, hlookup, hres, mkInlineTag]

/-- Witness for C4: a matching `link` tag over a one-artifact set, and a
matching `script` tag over another. -/
theorem c4_witness :
    processTag ⟨⟨"/dist", "auto"⟩, [("style.css", "body css")]⟩ (fun _ => true)
      { tagName := "link", attributes := [("href", "style.css")] } "index.html" =
      .ok { tagName := "style", closeTag := true, attributes := [("type", "text/css")],
            innerHTML := some "body css",
            metaPlugin := some "html-webpack-inline-source-plugin" } ∧
    processTag ⟨⟨"/dist", "auto"⟩, [("app.js", "var a = 1;")]⟩ (fun _ => true)
      { tagName := "script", attributes := [("src", "app.js")] } "index.html" =
      .ok { tagName := "script", closeTag := true, attributes := [("type", "text/javascript")],
            innerHTML := some (escapeScriptEnd "var a = 1;"),
            metaPlugin := some "html-webpack-inline-source-plugin" } :=
  ⟨(c4_replacement_descriptor ⟨⟨"/dist", "auto"⟩, [("style.css", "body css")]⟩ (fun _ => true)
      { tagName := "link", attributes := [("href", "style.css")] } "index.html" "style.css"
      "body css" ⟨some "body css", "style.css"⟩).1 rfl rfl rfl rfl rfl,
   (c4_replacement_descriptor ⟨⟨"/dist", "auto"⟩, [("app.js", "var a = 1;")]⟩ (fun _ => true)
      { tagName := "script", attributes := [("src", "app.js")] } "index.html" "app.js"
      "var a = 1;" ⟨some "var a = 1;", "app.js"⟩).2 rfl rfl rfl rfl rfl⟩

/-- The non-global replace of the original source-map URL either leaves the
content untouched (no match) or rewrites exactly the reference span: the
content splits as `p ++ url ++ t` with the trailing group `t` (whitespace and
optional closing comment marker) preserved verbatim. -/
theorem replaceMapUrlL_frame (url corr : List Char) :
    ∀ l, replaceMapUrlL url corr l = l ∨
      ∃ p t, l = p ++ url ++ t ∧ replaceMapUrlL url corr l = p ++ corr ++ t ∧
        tailMatchesClose t = true := by
  intro l
  induction l with
  | nil => exact Or.inl rfl
  | cons c rest ih =>
    by_cases h : (url.isPrefixOf (c :: rest) && tailMatchesClose ((c :: rest).drop url.length)) = true
    · right
      obtain ⟨hpre, htail⟩ := Bool.and_eq_true_iff.mp h
      obtain ⟨t, ht⟩ := List.isPrefixOf_iff_prefix.mp hpre
      have hdrop : (c :: rest).drop url.length = t := by
        rw [← ht]
        exact List.drop_left url t
      refine ⟨[], t, by rw [← ht]; rfl, ?_, ?_⟩
      · simp only [replaceMapUrlL, h, if_true]
        rw [hdrop]
        rfl
      · rw [← hdrop]
        exact htail
    · have hstep : replaceMapUrlL url corr (c :: rest) = c :: replaceMapUrlL url corr rest := by
        simp [replaceMapUrlL, h]
      rcases ih with hsame | ⟨p, t, hl, hr, htail⟩
      · left
        rw [hstep, hsame]
      · right
        refine ⟨c :: p, t, ?_, ?_, htail⟩
        · rw [hl]
          simp
        · rw [hstep, hr]
          simp

/-- Replacing the URL by itself is the identity. -/
theorem replaceMapUrlL_self (url : List Char) (l : List Char) :
    replaceMapUrlL url url l = l := by
  rcases replaceMapUrlL_frame url url l with h | ⟨p, t, hl, hr, _⟩
  · exact h
  · rw [hr, ← hl]

/-- C9: when `resolveSourceMaps` reaches the rewrite step, its output differs
from the input only in the reference span — the content decomposes as
`p ++ url ++ t` and the output as `p ++ corrected ++ t`, with the trailing
whitespace/closing-marker group `t` preserved exactly (the no-match case
returns the input verbatim); and when the computed corrected reference
equals the original one the function returns the input unchanged. -/
theorem c9_rewrite_frame_and_idempotence (c : Compilation) (name s url : String)
    (hurl : getFrom s = some url) (hne : (url == "") = false)
    (hdata : strStartsWith url "data:" = false) (habs : strStartsWith url "/" = false) :
    (∀ r, resolveSourceMaps c ⟨some s, name⟩ = .ok r →
      r = s ∨ ∃ p t, s.data = p ++ url.data ++ t ∧
        r.data = p ++ (mapUrlCorrectedOf c.outputOptions name url).data ++ t ∧
        tailMatchesClose t = true) ∧
    (mapUrlCorrectedOf c.outputOptions name url = url →
      resolveSourceMaps c ⟨some s, name⟩ = .ok s) := by
  have hres : resolveSourceMaps c ⟨some s, name⟩ =
      .ok (String.mk (replaceMapUrlL url.data
        (mapUrlCorrectedOf c.outputOptions name url).data s.data)) := by
    simp [resolveSourceMaps, hurl, hne, hdata, habs]
  constructor
  · intro r hr
    rw [hres] at hr
    have hstr : String.mk (replaceMapUrlL url.data
        (mapUrlCorrectedOf c.outputOptions name url).data s.data) = r := by
      exact Except.ok.inj hr
    rcases replaceMapUrlL_frame url.data (mapUrlCorrectedOf c.outputOptions name url).data s.data
      with hsame | ⟨p, t, hl, hrw, htail⟩
    · left
      rw [← hstr, hsame]
    · right
      refine ⟨p, t, hl, ?_, htail⟩
      rw [← hstr, hrw]
  · intro heq
    rw [hres, heq, replaceMapUrlL_self]

/-- Witness for C9 at the concrete rewrite input of spec property 6. -/
theorem c9_witness :
    (∀ r, resolveSourceMaps ⟨⟨"/dist", "/static/"⟩, []⟩
        ⟨some "x;\n//# sourceMappingURL=foo.js.map", "bundle.js"⟩ = .ok r →
      r = "x;\n//# sourceMappingURL=foo.js.map" ∨
        ∃ p t, "x;\n//# sourceMappingURL=foo.js.map".data = p ++ "foo.js.map".data ++ t ∧
          r.data = p ++ (mapUrlCorrectedOf ⟨"/dist", "/static/"⟩ "bundle.js" "foo.js.map").data ++ t ∧
          tailMatchesClose t = true) ∧
    (mapUrlCorrectedOf ⟨"/dist", "/static/"⟩ "bundle.js" "foo.js.map" = "foo.js.map" →
      resolveSourceMaps ⟨⟨"/dist", "/static/"⟩, []⟩
        ⟨some "x;\n//# sourceMappingURL=foo.js.map", "bundle.js"⟩ =
        .ok "x;\n//# sourceMappingURL=foo.js.map") :=
  c9_rewrite_frame_and_idempotence ⟨⟨"/dist", "/static/"⟩, []⟩ "bundle.js"
    "x;\n//# sourceMappingURL=foo.js.map" "foo.js.map" rfl rfl rfl rfl

/-- One-step unfolding of the prefix test against `</script>`. -/
theorem scriptCloseL_isPrefixOf_cons (c : Char) (x : List Char) :
    scriptCloseL.isPrefixOf (c :: x) = (('<' == c) && scriptTailL.isPrefixOf x) := rfl

/-- The match remainder `/script>` contains neither a backslash nor `<`. -/
theorem scriptTailL_good : ∀ a ∈ scriptTailL, a ≠ '\\' ∧ a ≠ '<' := by decide

/-- A prefix of the escaped output that contains neither a backslash nor `<`
is already a prefix of the input: the escaper only deletes `<` characters
(in favour of `\x3C`) and inserts backslash-led text. -/
theorem escL_prefix_lift : ∀ (t q : List Char), (∀ a ∈ q, a ≠ '\\' ∧ a ≠ '<') →
    q.isPrefixOf (escapeScriptEndL t) = true → q.isPrefixOf t = true := by
  intro t
  induction t with
  | nil =>
    intro q _ hp
    cases q with
    | nil => rfl
    | cons a q' => simp [escapeScriptEndL, List.isPrefixOf] at hp
  | cons c rest ih =>
    intro q hq hp
    by_cases h : (c == '<' && scriptTailL.isPrefixOf rest) = true
    · rw [show escapeScriptEndL (c :: rest) =
          '\\' :: 'x' :: '3' :: 'C' :: escapeScriptEndL rest by
        simp [escapeScriptEndL, h]] at hp
      cases q with
      | nil => rfl
      | cons a q' =>
        rw [List.isPrefixOf] at hp
        obtain ⟨ha, _⟩ := Bool.and_eq_true_iff.mp hp
        exact absurd (eq_of_beq ha) (hq a (List.mem_cons_self a q')).1
    · rw [show escapeScriptEndL (c :: rest) = c :: escapeScriptEndL rest by
        simp [escapeScriptEndL, h]] at hp
      cases q with
      | nil => rfl
      | cons a q' =>
        rw [List.isPrefixOf] at hp
        obtain ⟨ha, h2⟩ := Bool.and_eq_true_iff.mp hp
        rw [List.isPrefixOf]
        refine Bool.and_eq_true_iff.mpr ⟨ha, ?_⟩
        exact ih q' (fun a ha' => hq a (List.mem_cons_of_mem _ ha')) h2

/-- The escaped output never contains `</script>`. -/
theorem escL_no_close : ∀ l, listContains scriptCloseL (escapeScriptEndL l) = false := by
  intro l
  induction l with
  | nil => rfl
  | cons c rest ih =>
    by_cases h : (c == '<' && scriptTailL.isPrefixOf rest) = true
    · rw [show escapeScriptEndL (c :: rest) =
          '\\' :: 'x' :: '3' :: 'C' :: escapeScriptEndL rest by
        simp [escapeScriptEndL, h]]
      exact ih
    · rw [show escapeScriptEndL (c :: rest) = c :: escapeScriptEndL rest by
        simp [escapeScriptEndL, h]]
      rw [listContains]
      refine Bool.or_eq_false_iff.mpr ⟨?_, ih⟩
      by_cases hpre : scriptCloseL.isPrefixOf (c :: escapeScriptEndL rest) = true
      · exfalso
        rw [scriptCloseL_isPrefixOf_cons] at hpre
        obtain ⟨hc, htail⟩ := Bool.and_eq_true_iff.mp hpre
        have htail' := escL_prefix_lift rest scriptTailL scriptTailL_good htail
        rw [← eq_of_beq hc] at h
        exact h (by simp [htail'])
      · exact Bool.eq_false_iff.mpr hpre

/-- Content without an occurrence of `</script>` is escaped to itself. -/
theorem escL_id : ∀ l, listContains scriptCloseL l = false → escapeScriptEndL l = l := by
  intro l
  induction l with
  | nil => intro _; rfl
  | cons c rest ih =>
    intro hnone
    rw [listContains] at hnone
    obtain ⟨hpre, hrest⟩ := Bool.or_eq_false_iff.mp hnone
    rw [scriptCloseL_isPrefixOf_cons] at hpre
    have hcond : (c == '<' && scriptTailL.isPrefixOf rest) = false := by
      cases hc : (c == '<') with
      | false => simp
      | true =>
        rw [← eq_of_beq hc] at hpre
        simp at hpre ⊢
        simpa using hpre
    rw [show escapeScriptEndL (c :: rest) = c :: escapeScriptEndL rest by
      simp [escapeScriptEndL, hcond]]
    rw [ih hrest]

/-- C5: the escaped script body never contains the literal `</script>`;
content without such an occurrence is preserved verbatim; and on a concrete
occurrence the `<` becomes the four-character hexadecimal escape `\x3C`
while everything else stays byte-identical. -/
theorem c5_script_close_escaped (s : String) :
    strContains (escapeScriptEnd s) "</script>" = false ∧
    (strContains s "</script>" = false → escapeScriptEnd s = s) ∧
    escapeScriptEnd "a<b</script>c" = "a<b\\x3C/script>c" := by
  refine ⟨?_, ?_, by decide⟩
  · have h := escL_no_close s.data
    have hdata : ("</script>" : String).data = scriptCloseL := by decide
    rw [strContains, escapeScriptEnd, hdata]
    exact h
  · intro hno
    have hdata : ("</script>" : String).data = scriptCloseL := by decide
    rw [strContains, hdata] at hno
    rw [escapeScriptEnd, escL_id s.data hno]

/-- Witness for C5 at concrete inputs: content containing `</script>` and
content without it. -/
theorem c5_witness :
    strContains (escapeScriptEnd "x</script>") "</script>" = false ∧
    escapeScriptEnd "var a = 1;" = "var a = 1;" :=
  ⟨(c5_script_close_escaped "x</script>").1,
   (c5_script_close_escaped "var a = 1;").2.1 (by decide)⟩

/-- Shape of the exception-propagating map on success: same length, and each
output element is the image of the input element at the same position. -/
theorem mapTags_ok (f : HtmlTag → Except String HtmlTag) :
    ∀ (l out : List HtmlTag), mapTags f l = .ok out →
      out.length = l.length ∧
      ∀ (i : Nat) (h1 : i < l.length) (h2 : i < out.length),
        f (l.get ⟨i, h1⟩) = .ok (out.get ⟨i, h2⟩) := by
  intro l
  induction l with
  | nil =>
    intro out h
    simp only [mapTags] at h
    have hout : out = [] := (Except.ok.inj h).symm
    subst hout
    exact ⟨rfl, fun i h1 _ => absurd h1 (by simp)⟩
  | cons t ts ih =>
    intro out h
    simp only [mapTags] at h
    cases hft : f t with
    | error e =>
      rw [hft] at h
      simp at h
    | ok r =>
      rw [hft] at h
      cases hrest : mapTags f ts with
      | error e =>
        rw [hrest] at h
        simp at h
      | ok rs =>
        rw [hrest] at h
        have hout : out = r :: rs := (Except.ok.inj h).symm
        subst hout
        obtain ⟨hlen, hget⟩ := ih rs hrest
        refine ⟨by simp [hlen], ?_⟩
        intro i h1 h2
        cases i with
        | zero => simpa using hft
        | succ j => exact hget j (by simpa using h1) (by simpa using h2)

/-- A successful `processTag` returns either the input tag itself or the
inline replacement descriptor built from the input tag's name. -/
theorem processTag_ok_shape (c : Compilation) (regex : String → Bool) (tag : HtmlTag)
    (filename : String) (r : HtmlTag) (h : processTag c regex tag filename = .ok r) :
    r = tag ∨ ∃ s, r = mkInlineTag tag.tagName s := by
  have haux : ∀ (o : Option String), inlineAsset c tag o filename = .ok r →
      r = tag ∨ ∃ s, r = mkInlineTag tag.tagName s := by
    intro o ho
    cases o with
    | none => simp [inlineAsset] at ho
    | some u =>
      simp only [inlineAsset] at ho
      cases hl : getAssetByName c.assets (assetNameFor filename u (publicPathOf c.outputOptions))
          (publicPathOf c.outputOptions) with
      | none =>
        simp only [hl] at ho
        exact Or.inl (Except.ok.inj ho).symm
      | some info =>
        simp only [hl] at ho
        cases hres : resolveSourceMaps c info with
        | error e =>
          simp only [hres] at ho
          simp at ho
        | ok u' =>
          simp only [hres] at ho
          exact Or.inr ⟨u', (Except.ok.inj ho).symm⟩
  by_cases h1 : (tag.tagName == "script" && regex (jsStringOf (getAttr tag "src"))) = true
  · simp only [processTag, h1, if_true] at h
    exact haux _ h
  · by_cases h2 : (tag.tagName == "link" && regex (jsStringOf (getAttr tag "href"))) = true
    · simp only [processTag, h1, h2, if_true, Bool.false_eq_true, if_false] at h
      exact haux _ h
    · simp only [processTag, h1, h2, Bool.false_eq_true, if_false] at h
      exact Or.inl (Except.ok.inj h).symm

/-- C6: on success, each of the three output sequences of `processTags` has
the length of the corresponding input sequence, and the tag at every
position is either the input tag at that position unchanged or its in-place
inline replacement; no tag is dropped, added or reordered. -/
theorem c6_processTags_shape (c : Compilation) (regex : String → Bool) (pd r : PluginData)
    (h : processTags c regex pd = .ok r) :
    (r.assetTags.meta.length = pd.assetTags.meta.length ∧
     r.assetTags.scripts.length = pd.assetTags.scripts.length ∧
     r.assetTags.styles.length = pd.assetTags.styles.length) ∧
    (∀ (i : Nat) (h1 : i < pd.assetTags.meta.length) (h2 : i < r.assetTags.meta.length),
      r.assetTags.meta.get ⟨i, h2⟩ = pd.assetTags.meta.get ⟨i, h1⟩ ∨
      ∃ s, r.assetTags.meta.get ⟨i, h2⟩ =
        mkInlineTag (pd.assetTags.meta.get ⟨i, h1⟩).tagName s) ∧
    (∀ (i : Nat) (h1 : i < pd.assetTags.scripts.length) (h2 : i < r.assetTags.scripts.length),
      r.assetTags.scripts.get ⟨i, h2⟩ = pd.assetTags.scripts.get ⟨i, h1⟩ ∨
      ∃ s, r.assetTags.scripts.get ⟨i, h2⟩ =
        mkInlineTag (pd.assetTags.scripts.get ⟨i, h1⟩).tagName s) ∧
    (∀ (i : Nat) (h1 : i < pd.assetTags.styles.length) (h2 : i < r.assetTags.styles.length),
      r.assetTags.styles.get ⟨i, h2⟩ = pd.assetTags.styles.get ⟨i, h1⟩ ∨
      ∃ s, r.assetTags.styles.get ⟨i, h2⟩ =
        mkInlineTag (pd.assetTags.styles.get ⟨i, h1⟩).tagName s) := by
  simp only [processTags] at h
  cases hm : mapTags (fun tag => processTag c regex tag pd.filename) pd.assetTags.meta with
  | error e => rw [hm] at h; simp at h
  | ok metaTags =>
    rw [hm] at h
    cases hs : mapTags (fun tag => processTag c regex tag pd.filename) pd.assetTags.scripts with
    | error e => rw [hs] at h; simp at h
    | ok scriptTags =>
      rw [hs] at h
      cases hy : mapTags (fun tag => processTag c regex tag pd.filename) pd.assetTags.styles with
      | error e => rw [hy] at h; simp at h
      | ok styleTags =>
        rw [hy] at h
        have hr : r = { pd with assetTags := ⟨metaTags, scriptTags, styleTags⟩ } :=
          (Except.ok.inj h).symm
        subst hr
        obtain ⟨hml, hmg⟩ := mapTags_ok _ _ _ hm
        obtain ⟨hsl, hsg⟩ := mapTags_ok _ _ _ hs
        obtain ⟨hyl, hyg⟩ := mapTags_ok _ _ _ hy
        refine ⟨⟨hml, hsl, hyl⟩, ?_, ?_, ?_⟩
        · intro i h1 h2
          exact processTag_ok_shape c regex _ pd.filename _ (hmg i h1 h2)
        · intro i h1 h2
          exact processTag_ok_shape c regex _ pd.filename _ (hsg i h1 h2)
        · intro i h1 h2
          exact processTag_ok_shape c regex _ pd.filename _ (hyg i h1 h2)

/-- Witness for C6: one tag per group and a never-matching pattern;
`processTags` succeeds and the component-wise length equalities hold at that
instance. -/
theorem c6_witness :
    [(⟨"meta", [], false, none, none⟩ : HtmlTag)].length =
      [(⟨"meta", [], false, none, none⟩ : HtmlTag)].length ∧
    [(⟨"script", [("src", "app.js")], false, none, none⟩ : HtmlTag)].length =
      [(⟨"script", [("src", "app.js")], false, none, none⟩ : HtmlTag)].length ∧
    [(⟨"link", [("href", "style.css")], false, none, none⟩ : HtmlTag)].length =
      [(⟨"link", [("href", "style.css")], false, none, none⟩ : HtmlTag)].length :=
  (c6_processTags_shape ⟨⟨"/dist", "auto"⟩, []⟩ (fun _ => false)
    ⟨"index.html", ⟨[⟨"meta", [], false, none, none⟩],
                    [⟨"script", [("src", "app.js")], false, none, none⟩],
                    [⟨"link", [("href", "style.css")], false, none, none⟩]⟩⟩
    ⟨"index.html", ⟨[⟨"meta", [], false, none, none⟩],
                    [⟨"script", [("src", "app.js")], false, none, none⟩],
                    [⟨"link", [("href", "style.css")], false, none, none⟩]⟩⟩ rfl).1
